import Mathlib

/-!
Verification of the core utility and panel logic of the vscode-edge-devtools
extension (files `src/utils.ts` and `src/screencastPanel.ts`).

Strings are modelled as `List Char` (`Str`): every function below is a direct
shallow embedding of the corresponding TypeScript function, with JavaScript
string primitives (`trim`, `replace`, regular-expression matching, …)
modelled explicitly on character lists.  External platform primitives
(the HTTP stack, `JSON.parse`, the vscode workspace state) are passed in as
explicit parameters, so that the functions stay pure and executable.
-/

set_option maxHeartbeats 1000000

/-- Character-list model of JavaScript strings. -/
abbrev Str := List Char

/-- The main JavaScript whitespace characters recognised by `String.prototype.trim`
(the full set also contains the Unicode space separators, which never occur in
the payloads modelled here). -/
def isJsWhitespace (c : Char) : Bool :=
  c = ' ' ∨ c = '\t' ∨ c = '\n' ∨ c = '\r' ∨ c = '\x0b' ∨ c = '\x0c'

/-- Model of `String.prototype.trim`: drop whitespace from both ends. -/
def jsTrim (s : Str) : Str :=
  ((s.dropWhile isJsWhitespace).reverse.dropWhile isJsWhitespace).reverse

/-- ASCII lowering, modelling the case-insensitive `i` regex flag used by
`applyPathMapping` (the payloads compared here are ASCII). -/
def strLower (s : Str) : Str := s.map Char.toLower

/-- Model of `str.replace(searchValue, rep)` for a plain string `searchValue`:
replace the first (leftmost) occurrence of `pat` only; if `pat` does not
occur, the string is returned unchanged.  (JavaScript `$`-substitution
patterns inside the replacement are not modelled; no caller here uses them.) -/
def replaceFirst (pat rep : Str) : Str → Str
  | [] => if pat.isPrefixOf ([] : Str) then rep else []
  | c :: rest =>
      if pat.isPrefixOf (c :: rest) then rep ++ (c :: rest).drop pat.length
      else c :: replaceFirst pat rep rest

/- ### fetchUri (src/utils.ts lines 112-139) -/

/-- The observable outcome of one HTTP GET issued by `fetchUri`: either the
request emits an `error` event, or a response arrives with a status code and
a sequence of `data` chunks followed by `end`. -/
inductive FetchOutcome where
  | netError (e : Str)
  | response (statusCode : Nat) (chunks : List Str)

/-- Shallow embedding of `fetchUri` (src/utils.ts lines 112-139).  The uri and
request options select a `FetchOutcome` (callers pass `net uri`); the promise
is modelled as `Except`: `resolve` ↦ `.ok`, `reject` ↦ `.error`.  The body is
accumulated chunk by chunk (`responseData += chunk`); on `end` the accumulated
body resolves if the status is 200 and otherwise rejects with the trimmed
body; an `error` event rejects with the underlying error. -/
def fetchUri (outcome : FetchOutcome) : Except Str Str :=
  match outcome with
  | .netError e => .error e
  | .response statusCode chunks =>
      let responseData := chunks.foldl (fun acc chunk => acc ++ chunk) ([] : Str)
      if statusCode = 200 then .ok responseData
      else .error (jsTrim responseData)

/- ### fixRemoteWebSocket (src/utils.ts lines 150-162) -/

/-- Model of `url.match(/ws:\/\/([^/]+)\/?/)`, returning the first capture
group: scan for the earliest index at which the literal `ws://` occurs
followed by at least one character other than `/`; the capture is the maximal
run of non-`/` characters starting right after that `ws://`. -/
def wsHostMatch : Str → Option Str
  | [] => none
  | c :: rest =>
      let cap := (rest.drop 4).takeWhile (fun d => d ≠ '/')
      if ("ws://".data).isPrefixOf (c :: rest) ∧ cap ≠ [] then some cap
      else wsHostMatch rest

/-- The record shape of one entry of the `/json/list` payload
(`IRemoteTargetJson`, src/utils.ts lines 95-105).  `webSocketDebuggerUrl` is
optional: `none` models an absent field. -/
structure IRemoteTargetJson where
  description : Str
  devtoolsFrontendUrl : Str
  faviconUrl : Str
  id : Str
  title : Str
  type : Str
  url : Str
  webSocketDebuggerUrl : Option Str
deriving DecidableEq

/-- Shallow embedding of `fixRemoteWebSocket` (src/utils.ts lines 150-162).
The in-place mutation of `target.webSocketDebuggerUrl` is modelled by
returning the updated record.  The truthiness test `if (target.webSocketDebuggerUrl)`
is false both for an absent field and for an empty string.  A found host is
replaced via `String.prototype.replace`, i.e. the first occurrence of the
captured host substring anywhere in the url is replaced. -/
def fixRemoteWebSocket (remoteAddress : Str) (remotePort : Nat)
    (target : IRemoteTargetJson) : IRemoteTargetJson :=
  match target.webSocketDebuggerUrl with
  | none => target
  | some u =>
      if u ≠ [] then
        match wsHostMatch u with
        | some host =>
            let replaceAddress := remoteAddress ++ (":".data) ++ (Nat.repr remotePort).data
            { target with webSocketDebuggerUrl := some (replaceFirst host replaceAddress u) }
        | none => target
      else target

/- ### getListOfTargets (src/utils.ts lines 169-195) -/

/-- The scheme string chosen by `getListOfTargets`: `useHttps ? "https" : "http"`. -/
def protocolOf (useHttps : Bool) : Str :=
  if useHttps then ("https".data) else ("http".data)

/-- The uri built for one discovery endpoint suffix:
`{protocol}://{hostname}:{port}{endpoint}`. -/
def discoveryEndpointUri (protocol hostname : Str) (port : Nat) (endpoint : Str) : Str :=
  protocol ++ ("://".data) ++ hostname ++ (":".data) ++ (Nat.repr port).data ++ endpoint

/-- The `for (const endpoint of ["/json/list", "/json"])` loop of
`getListOfTargets`: `jsonResponse` starts out as the empty string, a
successful fetch with a non-empty body breaks out of the loop, a successful
fetch with an empty body stores it and continues, and a rejected fetch is
swallowed (`catch { /* Do nothing */ }`) leaving `jsonResponse` unchanged.
`net` gives the outcome of the GET for each uri (every discovery request also
carries a `Host: localhost` header, which does not influence this model). -/
def targetsLoop (net : Str → FetchOutcome) : Str → List Str → Str
  | jsonResponse, [] => jsonResponse
  | jsonResponse, uri :: rest =>
      match fetchUri (net uri) with
      | .ok b => if b = [] then targetsLoop net b rest else b
      | .error _ => targetsLoop net jsonResponse rest

/-- The body string selected by `getListOfTargets`'s endpoint loop. -/
def discoveredBody (net : Str → FetchOutcome) (hostname : Str) (port : Nat)
    (useHttps : Bool) : Str :=
  targetsLoop net ([] : Str)
    ((["/json/list", "/json"] : List String).map
      (fun e => discoveryEndpointUri (protocolOf useHttps) hostname port e.data))

/-- Shallow embedding of `getListOfTargets` (src/utils.ts lines 169-195).
`jsonParse` models `JSON.parse` specialised to the expected array payload:
`none` models a thrown `SyntaxError` (the `catch` branch yields `[]`).  The
function is total: no fetch failure or parse failure escapes to the caller. -/
def getListOfTargets {α : Type} (net : Str → FetchOutcome)
    (jsonParse : Str → Option (List α)) (hostname : Str) (port : Nat)
    (useHttps : Bool) : List α :=
  match jsonParse (discoveredBody net hostname port useHttps) with
  | some result => result
  | none => []

/-- The endpoint-fallback rule stated by the spec (with the emptiness test
taken on the raw body, as the code does): use the `/json/list` body when that
fetch resolved with a non-empty body; otherwise fall back to the `/json`
body; when every fetch fails the body is empty.  Stated separately from the
implementation so that `getListOfTargets` can be proved to refine it. -/
def specFallbackBody (r1 r2 : Except Str Str) : Str :=
  match r1 with
  | .ok b1 =>
      if b1 ≠ [] then b1
      else match r2 with
           | .ok b2 => b2
           | .error _ => []
  | .error _ =>
      match r2 with
      | .ok b2 => b2
      | .error _ => []

/- ### Path helpers from vscode-chrome-debug-core used by applyPathMapping.
The extension calls `debugCore.utils.properJoin` and
`debugCore.utils.canonicalizeUrl` from the vscode-chrome-debug-core library;
they are modelled here from that library's documented behaviour. -/

/-- Separator test for the win32 flavour of node's `path` module. -/
def isSlashChar (c : Char) : Bool := c = '/' ∨ c = '\\'

/-- Split a character list into the runs separated by characters satisfying
`isSep` (the separators themselves are dropped; empty runs are kept, matching
`String.prototype.split`). -/
def splitOnSeps (isSep : Char → Bool) : Str → List Str
  | [] => [[]]
  | c :: rest =>
      let tail := splitOnSeps isSep rest
      if isSep c then [] :: tail
      else match tail with
           | [] => [[c]]
           | seg :: segs => (c :: seg) :: segs

/-- One step of node's `normalizeString`: push a path segment onto the
(reversed) stack of resolved segments, eliding `""` and `"."` and resolving
`".."` (which escapes upward only when `allowAboveRoot` is set, i.e. for
relative paths). -/
def pushSegment (allowAboveRoot : Bool) (stack : List Str) (seg : Str) : List Str :=
  if seg = [] then stack
  else if seg = ['.'] then stack
  else if seg = ['.', '.'] then
    match stack with
    | [] => if allowAboveRoot then [seg] else []
    | top :: rest =>
        if top = ['.', '.'] then (if allowAboveRoot then seg :: stack else stack)
        else rest
  else seg :: stack

/-- Model of node's `path.posix.normalize` (which is what
`path.posix.join` computes on a single argument): resolve `.` and `..`
segments, collapse repeated separators, and keep the absolute prefix and the
trailing separator. -/
def posixNormalize (s : Str) : Str :=
  let isAbs := s.take 1 = ['/']
  let trailing := s ≠ [] ∧ s.getLast? = some '/'
  let body := List.intercalate (['/'] : Str)
    (((splitOnSeps (fun c => c = '/') s).foldl (pushSegment (!(s.take 1 = ['/'] : Bool) : Bool)) []).reverse)
  if body = [] then
    (if isAbs then ['/'] else if trailing then ['.', '/'] else ['.'])
  else
    let body2 := if trailing then body ++ ['/'] else body
    if isAbs then '/' :: body2 else body2

/-- Model of `path.win32.isAbsolute`. -/
def win32IsAbsolute (s : Str) : Bool :=
  match s with
  | [] => false
  | [c] => isSlashChar c
  | [c, _] => isSlashChar c
  | c :: d :: e :: _ => isSlashChar c ∨ (c.isAlpha ∧ d = ':' ∧ isSlashChar e)

/-- Model of node's `path.win32.normalize` on a single argument for
drive-letter and separator-rooted paths (UNC and device paths are not
modelled; no path-mapping replacement produces them). -/
def win32Normalize (s : Str) : Str :=
  let dev : Str := match s with
                   | c :: d :: _ => if c.isAlpha ∧ d = ':' then [c, ':'] else []
                   | _ => []
  let rest := s.drop dev.length
  let isAbs : Bool := match rest with
                      | c :: _ => isSlashChar c
                      | [] => false
  let trailing : Bool := match rest.getLast? with
                         | some c => isSlashChar c
                         | none => false
  let body := List.intercalate (['\\'] : Str)
    (((splitOnSeps isSlashChar rest).foldl (pushSegment (!isAbs)) []).reverse)
  if body = [] then
    dev ++ (if isAbs then ['\\'] else if trailing then ['.', '\\'] else ['.'])
  else
    let body2 := if trailing then body ++ ['\\'] else body
    dev ++ (if isAbs then '\\' :: body2 else body2)

/-- Model of `debugCore.utils.properJoin` applied to a single path (the call
`properJoin(mappedPath)` in `applyPathMapping`, whose purpose there is to
resolve any `..` segments): posix-absolute and relative paths are normalised
with posix rules, win32-absolute paths with win32 rules.  (`path.join` of a
single empty string and `normalize` of the empty string both give `"."`.) -/
def properJoin (p : Str) : Str :=
  if p.take 1 = ['/'] then posixNormalize p
  else if win32IsAbsolute p then win32Normalize p
  else posixNormalize p

/-- Model of debug-core's `fileUrlToPath`: strip a `file:///` scheme, keeping
windows drive paths and re-rooting other paths at `/` (percent-decoding is
not modelled; no payload here is percent-encoded). -/
def fileUrlToPath (u : Str) : Str :=
  if ("file:///".data).isPrefixOf u then
    let rest := u.drop 8
    match rest with
    | c :: d :: _ => if c.isAlpha ∧ d = ':' then rest else '/' :: rest
    | _ => '/' :: rest
  else u

/-- Model of debug-core's query-string removal: `split('?')[0]`. -/
def dropQueryString (s : Str) : Str := s.takeWhile (fun c => c ≠ '?')

/-- Model of debug-core's `stripTrailingSlash`: `replace(/\/$/, '')`. -/
def stripTrailingSlash (s : Str) : Str :=
  if s.getLast? = some '/' then s.dropLast else s

/-- Model of debug-core's `fixDriveLetterAndSlashes` with its default
arguments: lower-case a leading drive letter. -/
def fixDriveLetterAndSlashes (s : Str) : Str :=
  match s with
  | c :: d :: rest => if c.isAlpha ∧ d = ':' then c.toLower :: ':' :: rest else s
  | _ => s

/-- Model of `debugCore.utils.canonicalizeUrl`: file-url conversion, query
removal, trailing-slash strip, drive-letter normalisation. -/
def canonicalizeUrl (u : Str) : Str :=
  fixDriveLetterAndSlashes (stripTrailingSlash (dropQueryString (fileUrlToPath u)))

/- ### applyPathMapping (src/utils.ts lines 400-444) and its helpers -/

/-- Number of `*` wildcards in a pattern: `(pattern.match(/\*/g) || []).length`. -/
def asteriskCount (p : Str) : Nat := (p.filter (fun c => c = '*')).length

/-- Model of `sourcePath.replace(/\\/g, "/")`: normalise separators to forward slashes. -/
def toForwardSlashes (s : Str) : Str :=
  s.map (fun c => if c = '\\' then '/' else c)

/-- A path-mapping table models a TypeScript string dictionary
(`IStringDictionary<string>`) as an insertion-ordered association list with
pairwise-distinct keys. -/
abbrev PathMappingTable := List (Str × Str)

/-- Model of `Object.keys(pathMapping).sort((a, b) => b.length - a.length)`: the keys
in insertion order, stably sorted by string length, longest first
(`Array.prototype.sort` is stable, as is insertion sort). -/
def sortedOverrideKeys (pathMapping : PathMappingTable) : List Str :=
  List.insertionSort (fun a b => b.length ≤ a.length) (pathMapping.map Prod.fst)

/-- Model of `pathMapping[leftPattern]`: object indexing on the table. -/
def tableLookup (pathMapping : PathMappingTable) (k : Str) : Str :=
  (((pathMapping.find? (fun kv => kv.1 = k)).map Prod.snd).getD [])

/-- Character normalisation performed on the left pattern by
`escapeRegexSpecialChars(leftPattern, "/*").replace(/\*/g, "(.*)").replace(/\\\\/g, "/")`:
every regex metacharacter except `/` and `*` is escaped (so it matches
itself literally), each escaped backslash `\\` is then rewritten to `/`, and
`*` becomes the capture group `(.*)`.  Net effect on pattern semantics: every
character is literal, except that `\` stands for `/` and `*` is the wildcard. -/
def normalizeLeftPattern (p : Str) : Str :=
  p.map (fun c => if c = '\\' then '/' else c)

/-- Whether `.` in a JavaScript regex (without the `s` flag) matches a
character: everything except the line terminators. -/
def regexDotMatches (c : Char) : Bool :=
  ¬(c = '\n' ∨ c = '\r' ∨ c = '\u2028' ∨ c = '\u2029')

/-- Model of `forwardSlashSourcePath.match(leftRegex)` where `leftRegex` is
the anchored case-insensitive regex built from `leftPattern` (see
`normalizeLeftPattern`), returning the text captured by the wildcard group.
This model is used only for patterns with at most one `*` (checked before
the match in the source): a starless pattern matches exactly its
case-insensitive literal text (the unused capture is modelled as the empty
string — the source reads the undefined group but, with zero wildcards on
the right side guaranteed by the preceding guard, never substitutes it), and
a one-star pattern `pre*suf` matches when the path case-insensitively starts
with `pre` and ends with `suf`, capturing the middle (whose characters must
be matchable by `.`, the split being forced by the anchors). -/
def matchLeftPattern (leftPattern s : Str) : Option Str :=
  let p := normalizeLeftPattern leftPattern
  let pre := p.takeWhile (fun c => c ≠ '*')
  if pre.length = p.length then
    (if strLower p = strLower s then some [] else none)
  else
    let suf := p.drop (pre.length + 1)
    let mid := (s.drop pre.length).take (s.length - pre.length - suf.length)
    if pre.length + suf.length ≤ s.length
        ∧ strLower (s.take pre.length) = strLower pre
        ∧ strLower (s.drop (s.length - suf.length)) = strLower suf
        ∧ mid.all regexDotMatches = true
    then some mid
    else none

/-- Model of `rightPattern.replace(/\*/g, wildcardValue)`: substitute the captured
text into every wildcard position of the replacement pattern. -/
def replaceStars (rightPattern wildcardValue : Str) : Str :=
  rightPattern.foldr (fun c acc => if c = '*' then wildcardValue ++ acc else c :: acc) []

/-- Shallow embedding of `replaceWorkSpaceFolderPlaceholder`
(src/utils.ts lines 460-468).  `workspaceFolder` models
`vscode.workspace.workspaceFolders`, carrying the first folder's
`uri.toString()` when a workspace is open: when there is no workspace (or
its uri is the empty string, which is falsy) the function returns the empty
string; otherwise the first occurrence of `${workspaceFolder}` is replaced
and the result canonicalised. -/
def replaceWorkSpaceFolderPlaceholder (workspaceFolder : Option Str) (mappedPath : Str) : Str :=
  match workspaceFolder with
  | some uriStr =>
      if uriStr ≠ [] then
        canonicalizeUrl (replaceFirst (("${workspaceFolder}").data) uriStr mappedPath)
      else []
  | none => []

/-- The transformation applied to the first matching mapping entry
(src/utils.ts lines 434-440): substitute the wildcard into the replacement,
fix any `..`s, then resolve the workspace-folder placeholder. -/
def mappedPathOfMatch (workspaceFolder : Option Str) (rightPattern wildcardValue : Str) : Str :=
  replaceWorkSpaceFolderPlaceholder workspaceFolder (properJoin (replaceStars rightPattern wildcardValue))

/-- The key-iteration loop of `applyPathMapping` (src/utils.ts lines
410-441) over the sorted keys: an entry is skipped when its left pattern has
more than one wildcard, or when its replacement has more wildcards than the
left pattern, or when the anchored match fails; the first surviving entry is
returned together with the captured wildcard text. -/
def findPathMappingMatch (pathMapping : PathMappingTable) (fsPath : Str) :
    List Str → Option (Str × Str)
  | [] => none
  | leftPattern :: restKeys =>
      let rightPattern := tableLookup pathMapping leftPattern
      if 1 < asteriskCount leftPattern then
        findPathMappingMatch pathMapping fsPath restKeys
      else if asteriskCount leftPattern < asteriskCount rightPattern then
        findPathMappingMatch pathMapping fsPath restKeys
      else
        match matchLeftPattern leftPattern fsPath with
        | some wildcardValue => some (rightPattern, wildcardValue)
        | none => findPathMappingMatch pathMapping fsPath restKeys

/-- Shallow embedding of `applyPathMapping` (src/utils.ts lines 400-444).
The source path is slash-normalised, the table's keys are tried longest
first, the first applicable match is transformed, and when nothing matches
the source path is returned unchanged. -/
def applyPathMapping (workspaceFolder : Option Str) (sourcePath : Str)
    (pathMapping : PathMappingTable) : Str :=
  let forwardSlashSourcePath := toForwardSlashes sourcePath
  match findPathMappingMatch pathMapping forwardSlashSourcePath (sortedOverrideKeys pathMapping) with
  | some (rightPattern, wildcardValue) =>
      mappedPathOfMatch workspaceFolder rightPattern wildcardValue
  | none => sourcePath

/-- Shallow embedding of `replaceWebRootInSourceMapPathOverridesEntry`
(src/utils.ts lines 383-391): replace `${webRoot}` by `webRoot` only when
`webRoot` is truthy and the placeholder sits at position 0 of the entry. -/
def replaceWebRootInSourceMapPathOverridesEntry (webRoot entry : Str) : Str :=
  if webRoot ≠ [] then
    if (("${webRoot}").data).isPrefixOf entry then
      webRoot ++ entry.drop (("${webRoot}").data).length
    else entry
  else entry

/-- The source-map-override resolution loop of `getRuntimeConfig`
(src/utils.ts lines 350-359): both sides of every entry get the `${webRoot}`
placeholder resolved before the table is handed to `applyPathMapping`. -/
def resolveSourceMapOverrides (webRoot : Str) (overrides : PathMappingTable) : PathMappingTable :=
  overrides.map (fun kv =>
    (replaceWebRootInSourceMapPathOverridesEntry webRoot kv.1,
     replaceWebRootInSourceMapPathOverridesEntry webRoot kv.2))

/- ### ScreencastPanel (src/screencastPanel.ts) -/

/-- The two disposable resources owned by one `ScreencastPanel` instance: its
webview panel and its `PanelSocket`. -/
structure PanelResources where
  panelDisposed : Bool
  socketDisposed : Bool
deriving DecidableEq

/-- The state relevant to `ScreencastPanel`'s lifecycle: every instance ever
constructed (identified by a fresh id, with the disposal state of its panel
and socket), the static `ScreencastPanel.instance` slot, and the id counter
used to model allocation of fresh panel/socket pairs. -/
structure ScreencastWorld where
  instances : List (Nat × PanelResources)
  current : Option Nat
  nextId : Nat
deriving DecidableEq

namespace ScreencastPanel

/-- Shallow embedding of `ScreencastPanel.dispose`
(src/screencastPanel.ts lines 52-57): clear the static `instance` slot and
dispose both the panel and the panel socket of the given instance. -/
def dispose (w : ScreencastWorld) (id : Nat) : ScreencastWorld :=
  { w with
      current := none,
      instances := w.instances.map (fun p =>
        if p.1 = id then (p.1, { panelDisposed := true, socketDisposed := true }) else p) }

/-- Shallow embedding of `ScreencastPanel.createOrShow`
(src/screencastPanel.ts lines 108-121): if an instance exists it is disposed
first; then a fresh webview panel (and, in the constructor, a fresh
`PanelSocket`) is created and recorded as the new instance. -/
def createOrShow (w : ScreencastWorld) : ScreencastWorld :=
  let afterDispose := match w.current with
                      | some id => dispose w id
                      | none => w
  { afterDispose with
      instances := afterDispose.instances ++
        [(afterDispose.nextId, { panelDisposed := false, socketDisposed := false })],
      current := some afterDispose.nextId,
      nextId := afterDispose.nextId + 1 }

/-- Well-formedness of a `ScreencastWorld`: recorded ids are below the
allocation counter and pairwise distinct, and the static slot only ever
holds a recorded id. -/
def wf (w : ScreencastWorld) : Prop :=
  (∀ p ∈ w.instances, p.1 < w.nextId) ∧
  (w.instances.map Prod.fst).Nodup ∧
  (∀ id, w.current = some id → id ∈ w.instances.map Prod.fst)

/-- The relay-ownership invariant: every instance whose socket is still live
is the instance recorded in the static slot. -/
def inv (w : ScreencastWorld) : Prop :=
  ∀ p ∈ w.instances, p.2.socketDisposed = false → w.current = some p.1

/-- Number of instances whose panel socket has not been disposed. -/
def liveSocketCount (w : ScreencastWorld) : Nat :=
  (w.instances.filter (fun p => !p.2.socketDisposed)).length

end ScreencastPanel

/- ### General helper lemmas -/

/-- The function `replaceFirst` is the identity when the search string does not occur. -/
theorem replaceFirst_of_no_occurrence {pat rep : Str} :
    ∀ {s : Str}, ¬ pat <:+: s → replaceFirst pat rep s = s := by
  intro s
  induction s with
  | nil =>
      intro h
      simp only [replaceFirst]
      rw [if_neg]
      intro hp
      exact h ( List.isPrefixOf_iff_prefix.mp hp).isInfix
  | cons c rest ih =>
      intro h
      simp only [replaceFirst]
      rw [if_neg]
      · rw [ih (fun hi => h (List.infix_cons hi))]
      · intro hp
        exact h ( List.isPrefixOf_iff_prefix.mp hp).isInfix

/-- The function `replaceFirst` rewrites at position 0 when the search string starts the input. -/
theorem replaceFirst_of_isPrefixOf {pat rep s : Str} (h : pat.isPrefixOf s = true) :
    replaceFirst pat rep s = rep ++ s.drop pat.length := by
  cases s with
  | nil =>
      have : pat = [] := List.prefix_nil.mp ( List.isPrefixOf_iff_prefix.mp h)
      subst this
      simp [replaceFirst]
  | cons c rest => simp [replaceFirst, h]

/-- The function `replaceFirst` skips a head character that starts no occurrence. -/
theorem replaceFirst_cons_of_ne {pat rep : Str} {c : Char} {s : Str}
    (h : pat.isPrefixOf (c :: s) = false) :
    replaceFirst pat rep (c :: s) = c :: replaceFirst pat rep s := by
  simp [replaceFirst, h]

/-- The function `takeWhile` stops exactly at the first failing element. -/
theorem takeWhile_append_stop {p : Char → Bool} :
    ∀ {a : Str} {c : Char} {d : Str}, (∀ x ∈ a, p x = true) → p c = false →
      (a ++ c :: d).takeWhile p = a := by
  intro a
  induction a with
  | nil =>
      intro c d _ hc
      simp [List.takeWhile_cons, hc]
  | cons x xs ih =>
      intro c d ha hc
      have hx : p x = true := ha x (List.mem_cons_self x xs)
      simp only [List.cons_append, List.takeWhile_cons, hx, if_pos]
      rw [ih (fun y hy => ha y (List.mem_cons_of_mem x hy)) hc]

/- ### Claim C6: the fetchUri contract -/

/-- C6: `fetchUri` resolves with the accumulated body exactly when the HTTP
status is 200; any other status rejects with the whitespace-trimmed body
text, and a network-level error rejects with that underlying error. -/
theorem fetchUri_contract :
    (∀ chunks : List Str,
        fetchUri (.response 200 chunks)
          = .ok (chunks.foldl (fun acc chunk => acc ++ chunk) ([] : Str))) ∧
    (∀ (statusCode : Nat) (chunks : List Str), statusCode ≠ 200 →
        fetchUri (.response statusCode chunks)
          = .error (jsTrim (chunks.foldl (fun acc chunk => acc ++ chunk) ([] : Str)))) ∧
    (∀ e : Str, fetchUri (.netError e) = .error e) ∧
    (∀ (outcome : FetchOutcome) (b : Str), fetchUri outcome = .ok b →
        ∃ chunks, outcome = .response 200 chunks
          ∧ b = chunks.foldl (fun acc chunk => acc ++ chunk) ([] : Str)) := by
  refine ⟨fun chunks => by simp [fetchUri], fun code chunks h => by simp [fetchUri, h],
    fun e => rfl, ?_⟩
  intro outcome b h
  cases outcome with
  | netError e => exact absurd h (by simp [fetchUri])
  | response code chunks =>
      by_cases hc : code = 200
      · subst hc
        simp [fetchUri] at h
        exact ⟨chunks, rfl, h.symm⟩
      · exact absurd h (by simp [fetchUri, hc])

/-- Witness for `fetchUri_contract` at concrete inputs. -/
theorem fetchUri_contract_witness :
    fetchUri (.response 404 [(" nope ".data)]) = .error (("nope").data) ∧
    (∃ chunks, FetchOutcome.response 200 [("[]".data)] = .response 200 chunks
        ∧ ("[]".data) = chunks.foldl (fun acc chunk => acc ++ chunk) ([] : Str)) := by
  constructor
  · exact (fetchUri_contract.2.1 404 [(" nope ".data)] (by decide)).trans
      (congrArg Except.error (by decide))
  · exact fetchUri_contract.2.2.2 (.response 200 [("[]".data)]) (("[]").data)
      ((fetchUri_contract.1 [("[]".data)]).trans (congrArg Except.ok (by decide)))

/- ### Claim C10: fixRemoteWebSocket only touches webSocketDebuggerUrl -/

/-- C10: `fixRemoteWebSocket` mutates its argument in place and returns that
record (modelled functionally as returning the updated record): whatever
happens, every field other than `webSocketDebuggerUrl` is left unchanged. -/
theorem fixRemoteWebSocket_frame (remoteAddress : Str) (remotePort : Nat)
    (t : IRemoteTargetJson) :
    (fixRemoteWebSocket remoteAddress remotePort t).id = t.id ∧
    (fixRemoteWebSocket remoteAddress remotePort t).title = t.title ∧
    (fixRemoteWebSocket remoteAddress remotePort t).url = t.url ∧
    (fixRemoteWebSocket remoteAddress remotePort t).description = t.description ∧
    (fixRemoteWebSocket remoteAddress remotePort t).type = t.type ∧
    (fixRemoteWebSocket remoteAddress remotePort t).devtoolsFrontendUrl = t.devtoolsFrontendUrl ∧
    (fixRemoteWebSocket remoteAddress remotePort t).faviconUrl = t.faviconUrl := by
  unfold fixRemoteWebSocket
  rcases t with ⟨d, dv, f, i, ti, ty, u, ws⟩
  cases ws with
  | none => exact ⟨rfl, rfl, rfl, rfl, rfl, rfl, rfl⟩
  | some v =>
      dsimp only
      split
      · split <;> exact ⟨rfl, rfl, rfl, rfl, rfl, rfl, rfl⟩
      · exact ⟨rfl, rfl, rfl, rfl, rfl, rfl, rfl⟩

/- ### Claim C4: fixRemoteWebSocket host rewriting -/

/-- A target record whose string fields are all empty. -/
def emptyTarget : IRemoteTargetJson :=
  { description := [], devtoolsFrontendUrl := [], faviconUrl := [], id := [],
    title := [], type := [], url := [], webSocketDebuggerUrl := none }

/-- A target whose websocket url has the one-letter host `s`. -/
def shortHostTarget : IRemoteTargetJson :=
  { emptyTarget with webSocketDebuggerUrl := some (("ws://s/x").data) }

/-- C4 counterexample: for the target whose `webSocketDebuggerUrl` is
`ws://s/x` (host `s`), the code does not produce `ws://10.0.0.5:9230/x` as
the claim requires: `String.prototype.replace` replaces the first occurrence
of the captured host text `s`, which here is the `s` of the `ws://` scheme,
yielding `w10.0.0.5:9230://s/x`. -/
theorem fixRemoteWebSocket_host_counterexample :
    (fixRemoteWebSocket (("10.0.0.5").data) 9230 shortHostTarget).webSocketDebuggerUrl
        = some (("w10.0.0.5:9230://s/x").data) ∧
    ¬ (fixRemoteWebSocket (("10.0.0.5").data) 9230 shortHostTarget).webSocketDebuggerUrl
        = some (("ws://10.0.0.5:9230/x").data) := by
  constructor <;> decide

/-- C4 as amended: when the target has a `webSocketDebuggerUrl` of the shape
`ws://<host>/<rest>` and the first occurrence of the host text in the url is
the host position itself (which holds whenever the host text does not also
occur inside the leading `ws://`), the host is replaced by
`remoteAddress:remotePort`; a target with no `webSocketDebuggerUrl` field is
returned unchanged, with no field added. -/
theorem fixRemoteWebSocket_amended (remoteAddress : Str) (remotePort : Nat)
    (host rest : Str) (t : IRemoteTargetJson)
    (hhost : host ≠ []) (hslash : ∀ c ∈ host, c ≠ '/')
    (hurl : t.webSocketDebuggerUrl = some (("ws://".data) ++ host ++ ('/' :: rest)))
    (hfirst : ∀ n, n < 5 →
        host.isPrefixOf ((("ws://".data) ++ host ++ ('/' :: rest)).drop n) = false) :
    fixRemoteWebSocket remoteAddress remotePort t =
      { t with webSocketDebuggerUrl := some (("ws://".data) ++
          (remoteAddress ++ (":".data) ++ (Nat.repr remotePort).data) ++ ('/' :: rest)) } ∧
    (∀ s : IRemoteTargetJson, s.webSocketDebuggerUrl = none →
        fixRemoteWebSocket remoteAddress remotePort s = s) := by
  have hurl2 : ("ws://".data) ++ host ++ ('/' :: rest)
      = 'w' :: 's' :: ':' :: '/' :: '/' :: (host ++ '/' :: rest) := by
    simp [List.append_assoc]
  constructor
  · have hmatch : wsHostMatch (("ws://".data) ++ host ++ ('/' :: rest)) = some host := by
      rw [hurl2]
      simp only [wsHostMatch, List.drop_succ_cons, List.drop_zero]
      rw [if_pos]
      · rw [takeWhile_append_stop (p := fun d => decide (d ≠ '/'))
          (fun x hx => by simp [hslash x hx]) (by simp)]
      · constructor
        · simp [List.isPrefixOf, String.data]
        · rw [takeWhile_append_stop (p := fun d => decide (d ≠ '/'))
            (fun x hx => by simp [hslash x hx]) (by simp)]
          exact hhost
    have hrepl : replaceFirst host
        (remoteAddress ++ (":".data) ++ (Nat.repr remotePort).data)
        (("ws://".data) ++ host ++ ('/' :: rest))
        = ("ws://".data) ++
            (remoteAddress ++ (":".data) ++ (Nat.repr remotePort).data) ++ ('/' :: rest) := by
      have h0 := hfirst 0 (by omega)
      have h1 := hfirst 1 (by omega)
      have h2 := hfirst 2 (by omega)
      have h3 := hfirst 3 (by omega)
      have h4 := hfirst 4 (by omega)
      rw [hurl2] at h0 h1 h2 h3 h4
      simp only [List.drop_succ_cons, List.drop_zero] at h0 h1 h2 h3 h4
      rw [hurl2, replaceFirst_cons_of_ne h0, replaceFirst_cons_of_ne h1,
        replaceFirst_cons_of_ne h2, replaceFirst_cons_of_ne h3,
        replaceFirst_cons_of_ne h4,
        replaceFirst_of_isPrefixOf
          ( List.isPrefixOf_iff_prefix.mpr (List.prefix_append host ('/' :: rest))),
        List.drop_left]
      simp [List.append_assoc]
    unfold fixRemoteWebSocket
    rw [hurl]
    dsimp only
    rw [if_pos (show (("ws://".data) ++ host ++ ('/' :: rest)) ≠ [] from by
      rw [hurl2]; exact List.cons_ne_nil _ _)]
    rw [hmatch]
    dsimp only
    rw [hrepl]
  · intro s hs
    unfold fixRemoteWebSocket
    rw [hs]

/-- The spec's example target: host `127.0.0.1:9222`. -/
def specExampleTarget : IRemoteTargetJson :=
  { emptyTarget with
      webSocketDebuggerUrl := some (("ws://127.0.0.1:9222/devtools/page/ABC").data) }

/-- Witness for `fixRemoteWebSocket_amended`: the spec's concrete example,
and the no-websocket-url pass-through. -/
theorem fixRemoteWebSocket_amended_witness :
    fixRemoteWebSocket (("10.0.0.5").data) 9230 specExampleTarget =
      { specExampleTarget with
          webSocketDebuggerUrl := some (("ws://10.0.0.5:9230/devtools/page/ABC").data) } ∧
    fixRemoteWebSocket (("10.0.0.5").data) 9230 emptyTarget = emptyTarget := by
  have h := fixRemoteWebSocket_amended (("10.0.0.5").data) 9230
    (("127.0.0.1:9222").data) (("devtools/page/ABC").data) specExampleTarget
    (by decide) (by decide) (by decide)
    (by intro n hn; interval_cases n <;> decide)
  exact ⟨h.1.trans (by decide), h.2 emptyTarget (by decide)⟩

/- ### Claims C1 and C5: getListOfTargets -/

/-- The parse result of `getListOfTargets` with the `catch` default, as an
`Option.getD`. -/
theorem getListOfTargets_eq_getD {α : Type} (net : Str → FetchOutcome)
    (jsonParse : Str → Option (List α)) (hostname : Str) (port : Nat) (useHttps : Bool) :
    getListOfTargets net jsonParse hostname port useHttps
      = (jsonParse (discoveredBody net hostname port useHttps)).getD [] := by
  unfold getListOfTargets
  cases jsonParse (discoveredBody net hostname port useHttps) <;> rfl

/-- The body chosen by the endpoint loop equals the spec's fallback rule
applied to the two fetch results, `/json/list` first. -/
theorem discoveredBody_eq_specFallback (net : Str → FetchOutcome) (hostname : Str)
    (port : Nat) (useHttps : Bool) :
    discoveredBody net hostname port useHttps =
      specFallbackBody
        (fetchUri (net (discoveryEndpointUri (protocolOf useHttps) hostname port
          (("/json/list").data))))
        (fetchUri (net (discoveryEndpointUri (protocolOf useHttps) hostname port
          (("/json").data)))) := by
  unfold discoveredBody
  simp only [List.map_cons, List.map_nil]
  rcases h1 : fetchUri (net (discoveryEndpointUri (protocolOf useHttps) hostname port
      (("/json/list").data))) with e1 | b1
  · rcases h2 : fetchUri (net (discoveryEndpointUri (protocolOf useHttps) hostname port
        (("/json").data))) with e2 | b2
    · simp [targetsLoop, h1, h2, specFallbackBody]
    · simp [targetsLoop, h1, h2, specFallbackBody]
  · by_cases hb1 : b1 = []
    · subst hb1
      rcases h2 : fetchUri (net (discoveryEndpointUri (protocolOf useHttps) hostname port
          (("/json").data))) with e2 | b2
      · simp [targetsLoop, h1, h2, specFallbackBody]
      · simp [targetsLoop, h1, h2, specFallbackBody]
    · simp [targetsLoop, h1, hb1, specFallbackBody]

/-- C1 (amended): `getListOfTargets` requests `/json/list` first and falls
back to `/json` exactly when the first fetch rejects (network error or
non-200 status) or resolves with an empty body — the emptiness test is on
the raw body, with no whitespace trimming — and it parses the body of the
first endpoint that returned a non-empty body regardless of whether that
body is valid JSON (a parse failure yields the empty list).  In particular,
when `/json/list` answers HTTP 500 (a rejection) and `/json` returns a valid
array, the result is that array. -/
theorem getListOfTargets_endpoint_fallback {α : Type} (net : Str → FetchOutcome)
    (jsonParse : Str → Option (List α)) (hostname : Str) (port : Nat) (useHttps : Bool) :
    getListOfTargets net jsonParse hostname port useHttps =
      (jsonParse (specFallbackBody
        (fetchUri (net (discoveryEndpointUri (protocolOf useHttps) hostname port
          (("/json/list").data))))
        (fetchUri (net (discoveryEndpointUri (protocolOf useHttps) hostname port
          (("/json").data)))))).getD [] := by
  rw [getListOfTargets_eq_getD, discoveredBody_eq_specFallback]

/-- The uri of the `/json/list` endpoint at the default host and port. -/
def defaultListUri : Str :=
  discoveryEndpointUri (protocolOf false) (("localhost").data) 9222 (("/json/list").data)

/-- A network on which `/json/list` answers 200 with a whitespace-only body
and every other uri (in particular `/json`) answers 200 with `[1]`. -/
def whitespaceBodyNet : Str → FetchOutcome := fun uri =>
  if uri = defaultListUri then .response 200 [(" ").data]
  else .response 200 [("[1]").data]

/-- A `JSON.parse` model that accepts exactly the array literal `[1]`
(`JSON.parse` throws on the whitespace-only string and on the empty string). -/
def onesParse : Str → Option (List Nat) := fun b =>
  if b = ("[1]").data then some [1] else none

/-- C1 counterexample: the claim says the fallback to `/json` happens when
`/json/list` returns a body that is empty after whitespace trimming, so for
the network above it requires the `/json` array `[1]`.  The code tests the
raw body (`if (jsonResponse) break;`) without trimming: the whitespace-only
`/json/list` body is kept, its JSON parse fails, and the result is `[]`,
not `[1]`. -/
theorem getListOfTargets_trimming_counterexample :
    getListOfTargets whitespaceBodyNet onesParse (("localhost").data) 9222 false
        = ([] : List Nat) ∧
    ([] : List Nat) ≠ [1] := by
  constructor <;> decide

/-- C5: `getListOfTargets` never throws to its caller: it is a total
function into lists; when both endpoint fetches reject it returns the empty
list (given that `JSON.parse` rejects the empty string, as it does), and
whenever parsing the chosen body fails it returns the empty list. -/
theorem getListOfTargets_never_throws {α : Type} (net : Str → FetchOutcome)
    (jsonParse : Str → Option (List α)) (hostname : Str) (port : Nat) (useHttps : Bool) :
    (∀ e1 e2,
        fetchUri (net (discoveryEndpointUri (protocolOf useHttps) hostname port
          (("/json/list").data))) = .error e1 →
        fetchUri (net (discoveryEndpointUri (protocolOf useHttps) hostname port
          (("/json").data))) = .error e2 →
        jsonParse ([] : Str) = none →
        getListOfTargets net jsonParse hostname port useHttps = []) ∧
    (jsonParse (discoveredBody net hostname port useHttps) = none →
        getListOfTargets net jsonParse hostname port useHttps = []) := by
  constructor
  · intro e1 e2 h1 h2 hp
    rw [getListOfTargets_eq_getD, discoveredBody_eq_specFallback, h1, h2]
    simp only [specFallbackBody]
    rw [hp]
    rfl
  · intro hp
    rw [getListOfTargets_eq_getD, hp]
    rfl

/-- A network on which every request fails with a connection error. -/
def downNet : Str → FetchOutcome := fun _ => .netError (("ECONNREFUSED").data)

/-- A `JSON.parse` model that rejects every body. -/
def rejectAllParse : Str → Option (List Nat) := fun _ => none

/-- Witness for `getListOfTargets_never_throws`: both endpoints down. -/
theorem getListOfTargets_never_throws_witness :
    getListOfTargets downNet rejectAllParse (("localhost").data) 9222 false
        = ([] : List Nat) ∧
    getListOfTargets downNet rejectAllParse (("127.0.0.1").data) 9229 true
        = ([] : List Nat) := by
  constructor
  · exact (getListOfTargets_never_throws downNet rejectAllParse (("localhost").data)
      9222 false).1 (("ECONNREFUSED").data) (("ECONNREFUSED").data) rfl rfl rfl
  · exact (getListOfTargets_never_throws downNet rejectAllParse (("127.0.0.1").data)
      9229 true).2 rfl

/- ### Claim C2: longest-pattern-first ordering -/

/-- The two overlapping default-table keys of the claim, with resolved
replacement sides (`webpack:///./*` maps to `${webRoot}/*`, which resolves to
`/proj/*` for a web root of `/proj`; `webpack:///*` maps to `*`). -/
def overlapTableA : PathMappingTable :=
  [((("webpack:///*").data), (("*").data)),
   ((("webpack:///./*").data), (("/proj/*").data))]

/-- The same two entries in the opposite insertion order. -/
def overlapTableB : PathMappingTable :=
  [((("webpack:///./*").data), (("/proj/*").data)),
   ((("webpack:///*").data), (("*").data))]

/-- A sample path matching both overlapping keys. -/
def overlapPath : Str := ("webpack:///./src/app.js").data

/-- A sample workspace-folder uri. -/
def sampleWorkspaceUri : Str := ("file:///root/proj").data

/-- C2: `applyPathMapping` tries the pattern keys sorted by string length
longest first (stably, for any table), and applies only the first pattern in
that order whose anchored case-insensitive match succeeds: for the sample
path, which matches both `webpack:///*` and `webpack:///./*`, the longer
key's replacement is applied — in either insertion order of the table — and
it differs from what the shorter key's replacement would have produced. -/
theorem applyPathMapping_longest_pattern_first :
    (∀ pathMapping : PathMappingTable,
        (sortedOverrideKeys pathMapping).Sorted (fun a b => b.length ≤ a.length)) ∧
    (matchLeftPattern (("webpack:///*").data) overlapPath).isSome = true ∧
    (matchLeftPattern (("webpack:///./*").data) overlapPath).isSome = true ∧
    applyPathMapping (some sampleWorkspaceUri) overlapPath overlapTableA
      = ("/proj/src/app.js").data ∧
    applyPathMapping (some sampleWorkspaceUri) overlapPath overlapTableB
      = ("/proj/src/app.js").data ∧
    applyPathMapping (some sampleWorkspaceUri) overlapPath
        [((("webpack:///*").data), (("*").data))]
      = ("src/app.js").data ∧
    (("/proj/src/app.js").data : Str) ≠ ("src/app.js").data := by
  refine ⟨?_, by decide, by decide, by decide, by decide, by decide, by decide⟩
  intro pathMapping
  haveI : IsTotal Str (fun a b => b.length ≤ a.length) :=
    ⟨fun a b => Nat.le_total b.length a.length⟩
  haveI : IsTrans Str (fun a b => b.length ≤ a.length) :=
    ⟨fun _ _ _ hab hbc => Nat.le_trans hbc hab⟩
  exact List.sorted_insertionSort _ _

/- ### Claim C3: the webRoot substitution example -/

/-- The claim's table `{"webpack:///./*": "${webRoot}/*"}` after the
`${webRoot}` resolution that `getRuntimeConfig` performs with a web root of
`/proj` before the table reaches `applyPathMapping`. -/
def webRootExampleTable : PathMappingTable :=
  resolveSourceMapOverrides (("/proj").data)
    [((("webpack:///./*").data), (("${webRoot}/*").data))]

/-- C3: with the table `{"webpack:///./*": "${webRoot}/*"}` and a web root
of `/proj` (the `${webRoot}` placeholder being resolved into the table by
`getRuntimeConfig`'s `replaceWebRootInSourceMapPathOverridesEntry` pass,
which is how the pipeline invokes `applyPathMapping`), mapping
`webpack:///./src/app.js` substitutes the matched wildcard text into the
replacement and yields `/proj/src/app.js`, for any open workspace folder. -/
theorem applyPathMapping_webroot_example (w : Str) (hw : w ≠ ([] : Str)) :
    applyPathMapping (some w) (("webpack:///./src/app.js").data) webRootExampleTable
      = ("/proj/src/app.js").data := by
  unfold applyPathMapping
  rw [show toForwardSlashes (("webpack:///./src/app.js").data)
      = ("webpack:///./src/app.js").data from by decide]
  dsimp only
  rw [show findPathMappingMatch webRootExampleTable (("webpack:///./src/app.js").data)
        (sortedOverrideKeys webRootExampleTable)
      = some ((("/proj/*").data), (("src/app.js").data)) from by decide]
  dsimp only
  unfold mappedPathOfMatch
  rw [show properJoin (replaceStars (("/proj/*").data) (("src/app.js").data))
      = ("/proj/src/app.js").data from by decide]
  unfold replaceWorkSpaceFolderPlaceholder
  dsimp only
  rw [if_pos hw]
  rw [replaceFirst_of_no_occurrence (by decide)]
  decide

/-- Witness for `applyPathMapping_webroot_example` at a concrete workspace. -/
theorem applyPathMapping_webroot_example_witness :
    applyPathMapping (some sampleWorkspaceUri) (("webpack:///./src/app.js").data)
        webRootExampleTable
      = ("/proj/src/app.js").data :=
  applyPathMapping_webroot_example sampleWorkspaceUri (by decide)

/- ### Claim C7: skip rules and the identity fallback -/

/-- If every non-skipped key fails to match, the key loop finds nothing. -/
theorem findPathMappingMatch_eq_none (pathMapping : PathMappingTable) (fsPath : Str) :
    ∀ keys : List Str,
      (∀ k ∈ keys, asteriskCount k ≤ 1 →
          asteriskCount (tableLookup pathMapping k) ≤ asteriskCount k →
          matchLeftPattern k fsPath = none) →
      findPathMappingMatch pathMapping fsPath keys = none := by
  intro keys
  induction keys with
  | nil => intro _; rfl
  | cons k rest ih =>
      intro h
      simp only [findPathMappingMatch]
      by_cases h1 : 1 < asteriskCount k
      · rw [if_pos h1]
        exact ih (fun k2 hk2 => h k2 (List.mem_cons_of_mem k hk2))
      · rw [if_neg h1]
        by_cases h2 : asteriskCount k < asteriskCount (tableLookup pathMapping k)
        · rw [if_pos h2]
          exact ih (fun k2 hk2 => h k2 (List.mem_cons_of_mem k hk2))
        · rw [if_neg h2]
          rw [h k (List.mem_cons_self k rest) (by omega) (by omega)]
          exact ih (fun k2 hk2 => h k2 (List.mem_cons_of_mem k hk2))

/-- Whatever the key loop returns came from a key in the list that passed
both wildcard guards and matched, with the returned pattern being that key's
table entry and the returned capture its wildcard text. -/
theorem findPathMappingMatch_eq_some (pathMapping : PathMappingTable) (fsPath : Str) :
    ∀ (keys : List Str) (rightPattern wildcardValue : Str),
      findPathMappingMatch pathMapping fsPath keys = some (rightPattern, wildcardValue) →
      ∃ k ∈ keys, asteriskCount k ≤ 1 ∧
        rightPattern = tableLookup pathMapping k ∧
        asteriskCount rightPattern ≤ asteriskCount k ∧
        matchLeftPattern k fsPath = some wildcardValue := by
  intro keys
  induction keys with
  | nil => intro r cap h; exact absurd h (by simp [findPathMappingMatch])
  | cons k rest ih =>
      intro r cap h
      simp only [findPathMappingMatch] at h
      by_cases h1 : 1 < asteriskCount k
      · rw [if_pos h1] at h
        obtain ⟨k2, hk2, hrest⟩ := ih r cap h
        exact ⟨k2, List.mem_cons_of_mem k hk2, hrest⟩
      · rw [if_neg h1] at h
        by_cases h2 : asteriskCount k < asteriskCount (tableLookup pathMapping k)
        · rw [if_pos h2] at h
          obtain ⟨k2, hk2, hrest⟩ := ih r cap h
          exact ⟨k2, List.mem_cons_of_mem k hk2, hrest⟩
        · rw [if_neg h2] at h
          rcases hm : matchLeftPattern k fsPath with _ | cap2
          · rw [hm] at h
            obtain ⟨k2, hk2, hrest⟩ := ih r cap h
            exact ⟨k2, List.mem_cons_of_mem k hk2, hrest⟩
          · rw [hm] at h
            obtain ⟨hr, hcap⟩ := Prod.mk.injEq .. ▸ Option.some.injEq .. ▸ h
            refine ⟨k, List.mem_cons_self k rest, by omega, hr.symm, ?_, ?_⟩
            · rw [← hr]; omega
            · rw [hm, hcap]

/-- C7: `applyPathMapping` never applies a skipped entry — whatever entry it
applies has at most one wildcard on the left and no more wildcards on the
right than on the left, and its match succeeded — and when no non-skipped
pattern matches the normalised path it returns the source path unchanged
(being a total function, it never raises). -/
theorem applyPathMapping_skip_and_identity (workspaceFolder : Option Str)
    (sourcePath : Str) (pathMapping : PathMappingTable) :
    ((∀ k ∈ pathMapping.map Prod.fst, asteriskCount k ≤ 1 →
        asteriskCount (tableLookup pathMapping k) ≤ asteriskCount k →
        matchLeftPattern k (toForwardSlashes sourcePath) = none) →
      applyPathMapping workspaceFolder sourcePath pathMapping = sourcePath) ∧
    (∀ rightPattern wildcardValue,
      findPathMappingMatch pathMapping (toForwardSlashes sourcePath)
          (sortedOverrideKeys pathMapping) = some (rightPattern, wildcardValue) →
      ∃ k ∈ pathMapping.map Prod.fst, asteriskCount k ≤ 1 ∧
        rightPattern = tableLookup pathMapping k ∧
        asteriskCount rightPattern ≤ asteriskCount k ∧
        matchLeftPattern k (toForwardSlashes sourcePath) = some wildcardValue) := by
  have hperm : ∀ k, k ∈ sortedOverrideKeys pathMapping ↔ k ∈ pathMapping.map Prod.fst :=
    fun k => (List.perm_insertionSort (fun a b => b.length ≤ a.length)
      (pathMapping.map Prod.fst)).mem_iff
  constructor
  · intro h
    unfold applyPathMapping
    dsimp only
    rw [findPathMappingMatch_eq_none pathMapping (toForwardSlashes sourcePath)
      (sortedOverrideKeys pathMapping)
      (fun k hk => h k ((hperm k).mp hk))]
  · intro r cap h
    obtain ⟨k, hk, hrest⟩ :=
      findPathMappingMatch_eq_some pathMapping (toForwardSlashes sourcePath)
        (sortedOverrideKeys pathMapping) r cap h
    exact ⟨k, (hperm k).mp hk, hrest⟩

/-- A table whose only key has two wildcards and is therefore skipped. -/
def twoStarTable : PathMappingTable := [((("*a*").data), (("x").data))]

/-- A table with a single universal one-wildcard entry. -/
def starTable : PathMappingTable := [((("*").data), (("*").data))]

/-- Witness for `applyPathMapping_skip_and_identity`: the two-wildcard table
is skipped even though its pattern would match, so the path comes back
unchanged; the one-wildcard table produces a match that satisfies the
guards. -/
theorem applyPathMapping_skip_and_identity_witness :
    applyPathMapping (some sampleWorkspaceUri) (("pa").data) twoStarTable = ("pa").data ∧
    (∃ k ∈ twoStarTable.map Prod.fst, asteriskCount k > 1) ∧
    (∃ k ∈ starTable.map Prod.fst, asteriskCount k ≤ 1 ∧
        (("*").data : Str) = tableLookup starTable k ∧
        asteriskCount (("*").data) ≤ asteriskCount k ∧
        matchLeftPattern k (toForwardSlashes (("pa").data)) = some (("pa").data)) := by
  refine ⟨?_, by decide, ?_⟩
  · exact (applyPathMapping_skip_and_identity (some sampleWorkspaceUri) (("pa").data)
      twoStarTable).1 (by decide)
  · exact (applyPathMapping_skip_and_identity (some sampleWorkspaceUri) (("pa").data)
      starTable).2 (("*").data) (("pa").data) (by decide)

/- ### Claim C8: no workspace root resolves to the empty string -/

/-- C8: when no workspace root is available, the placeholder-resolution step
returns the empty string rather than raising — for every input path — and
consequently `applyPathMapping`, which invokes it on every matched result,
returns the empty string for every matched source path. -/
theorem replaceWorkSpaceFolderPlaceholder_no_workspace :
    (∀ mappedPath : Str, replaceWorkSpaceFolderPlaceholder none mappedPath = []) ∧
    (∀ (sourcePath : Str) (pathMapping : PathMappingTable) (rightPattern wildcardValue : Str),
        findPathMappingMatch pathMapping (toForwardSlashes sourcePath)
            (sortedOverrideKeys pathMapping) = some (rightPattern, wildcardValue) →
        applyPathMapping none sourcePath pathMapping = []) := by
  constructor
  · intro mappedPath; rfl
  · intro sourcePath pathMapping r cap h
    unfold applyPathMapping
    dsimp only
    rw [h]
    rfl

/-- Witness for `replaceWorkSpaceFolderPlaceholder_no_workspace`. -/
theorem replaceWorkSpaceFolderPlaceholder_no_workspace_witness :
    replaceWorkSpaceFolderPlaceholder none (("${workspaceFolder}/src").data) = [] ∧
    applyPathMapping none (("pa").data) starTable = [] := by
  constructor
  · exact replaceWorkSpaceFolderPlaceholder_no_workspace.1 (("${workspaceFolder}/src").data)
  · exact replaceWorkSpaceFolderPlaceholder_no_workspace.2 (("pa").data) starTable
      (("*").data) (("pa").data) (by decide)

/- ### Claim C9: createOrShow replaces, never stacks -/

namespace ScreencastPanel

/-- The function `dispose` changes only disposal flags: the recorded ids are unchanged. -/
theorem dispose_instances_keys (w : ScreencastWorld) (id : Nat) :
    (dispose w id).instances.map Prod.fst = w.instances.map Prod.fst := by
  simp only [dispose, List.map_map]
  apply List.map_congr_left
  intro p _
  by_cases h : p.1 = id <;> simp [h]

/-- Appending a fresh live instance to a world whose sockets are all
disposed preserves well-formedness, re-establishes the ownership invariant,
and leaves exactly one live socket. -/
theorem appendFresh_invariants (I : List (Nat × PanelResources)) (n : Nat)
    (hall : ∀ p ∈ I, p.2.socketDisposed = true)
    (hbound : ∀ k ∈ I.map Prod.fst, k < n)
    (hnodup : (I.map Prod.fst).Nodup) :
    wf ⟨I ++ [(n, ⟨false, false⟩)], some n, n + 1⟩ ∧
    inv ⟨I ++ [(n, ⟨false, false⟩)], some n, n + 1⟩ ∧
    liveSocketCount ⟨I ++ [(n, ⟨false, false⟩)], some n, n + 1⟩ ≤ 1 := by
  refine ⟨⟨?_, ?_, ?_⟩, ?_, ?_⟩
  · intro p hp
    dsimp only
    rcases List.mem_append.mp hp with hl | hr
    · have := hbound p.1 (List.mem_map_of_mem Prod.fst hl)
      omega
    · have hp2 := List.mem_singleton.mp hr
      subst hp2
      omega
  · rw [List.map_append, List.nodup_append]
    refine ⟨hnodup, List.nodup_singleton n, ?_⟩
    intro a ha hb
    rw [List.map_singleton, List.mem_singleton] at hb
    subst hb
    exact absurd (hbound a ha) (by omega)
  · intro id hid
    rw [Option.some.injEq] at hid
    subst hid
    rw [List.map_append, List.map_singleton]
    exact List.mem_append_right _ (List.mem_singleton.mpr rfl)
  · intro p hp hlive
    rcases List.mem_append.mp hp with hl | hr
    · rw [hall p hl] at hlive
      cases hlive
    · have hp2 := List.mem_singleton.mp hr
      subst hp2
      rfl
  · unfold liveSocketCount
    rw [List.filter_append,
      List.filter_eq_nil_iff.mpr (fun p hp => by rw [hall p hp]; simp)]
    simp

/-- C9: `createOrShow` first disposes any existing instance — in particular
that instance's panel socket — and only then creates and records the new
instance: it preserves well-formedness and the socket-ownership invariant,
records the fresh instance, leaves every previously current instance with a
disposed socket, and leaves at most one live panel socket overall (replace,
never a stack of live sessions). -/
theorem createOrShow_replaces (w : ScreencastWorld) (hwf : wf w) (hinv : inv w) :
    wf (createOrShow w) ∧ inv (createOrShow w) ∧
    (createOrShow w).current = some w.nextId ∧
    (∀ id, w.current = some id →
        ∀ p ∈ (createOrShow w).instances, p.1 = id → p.2.socketDisposed = true) ∧
    liveSocketCount (createOrShow w) ≤ 1 := by
  obtain ⟨hbound, hnodup, hcur⟩ := hwf
  rcases hc : w.current with _ | curId
  · have hall : ∀ p ∈ w.instances, p.2.socketDisposed = true := by
      intro p hp
      cases hb : p.2.socketDisposed
      · have := hinv p hp hb
        rw [hc] at this
        cases this
      · rfl
    have hco : createOrShow w
        = ⟨w.instances ++ [(w.nextId, ⟨false, false⟩)], some w.nextId, w.nextId + 1⟩ := by
      simp [createOrShow, hc]
    obtain ⟨h1, h2, h3⟩ := appendFresh_invariants w.instances w.nextId hall
      (fun k hk => by
        obtain ⟨q, hq, rfl⟩ := List.mem_map.mp hk
        exact hbound q hq) hnodup
    rw [hco]
    refine ⟨h1, h2, rfl, ?_, h3⟩
    intro id hid
    exact Option.noConfusion hid
  · have hallD : ∀ p ∈ (dispose w curId).instances, p.2.socketDisposed = true := by
      intro p hp
      simp only [dispose] at hp
      obtain ⟨q, hq, rfl⟩ := List.mem_map.mp hp
      by_cases h : q.1 = curId
      · simp [h]
      · simp only [h, if_neg, ite_false]
        cases hb : q.2.socketDisposed
        · have := hinv q hq hb
          rw [hc, Option.some.injEq] at this
          exact absurd this.symm h
        · rfl
    have hco : createOrShow w
        = ⟨(dispose w curId).instances ++ [(w.nextId, ⟨false, false⟩)],
            some w.nextId, w.nextId + 1⟩ := by
      simp [createOrShow, hc, dispose]
    obtain ⟨h1, h2, h3⟩ := appendFresh_invariants (dispose w curId).instances w.nextId hallD
      (fun k hk => by
        rw [dispose_instances_keys] at hk
        obtain ⟨q, hq, rfl⟩ := List.mem_map.mp hk
        exact hbound q hq)
      (by rw [dispose_instances_keys]; exact hnodup)
    rw [hco]
    refine ⟨h1, h2, rfl, ?_, h3⟩
    intro id hid p hp hpid
    rcases List.mem_append.mp hp with hl | hr
    · exact hallD p hl
    · have hidmem := hcur id (hc.trans hid)
      obtain ⟨q, hq, hq1⟩ := List.mem_map.mp hidmem
      have hlt : id < w.nextId := hq1 ▸ hbound q hq
      have hp2 := List.mem_singleton.mp hr
      subst hp2
      simp only at hpid
      omega

end ScreencastPanel

/-- A world with one live screencast panel instance. -/
def sampleWorld : ScreencastWorld :=
  { instances := [(0, { panelDisposed := false, socketDisposed := false })],
    current := some 0, nextId := 1 }

/-- Witness for `ScreencastPanel.createOrShow_replaces` at a concrete world
with one live instance. -/
theorem createOrShow_replaces_witness :
    ScreencastPanel.wf (ScreencastPanel.createOrShow sampleWorld) ∧
    ScreencastPanel.inv (ScreencastPanel.createOrShow sampleWorld) ∧
    (ScreencastPanel.createOrShow sampleWorld).current = some sampleWorld.nextId ∧
    (∀ id, sampleWorld.current = some id →
        ∀ p ∈ (ScreencastPanel.createOrShow sampleWorld).instances, p.1 = id →
          p.2.socketDisposed = true) ∧
    ScreencastPanel.liveSocketCount (ScreencastPanel.createOrShow sampleWorld) ≤ 1 :=
  ScreencastPanel.createOrShow_replaces sampleWorld
    (by
      refine ⟨by decide, by decide, ?_⟩
      intro id h
      rw [show sampleWorld.current = some 0 from rfl, Option.some.injEq] at h
      subst h
      decide)
    (by unfold ScreencastPanel.inv; decide)
